import Mathlib

/-!
Shallow embedding of the deflate compression engine (package `compress`,
file compress.go, plus the level constants and default decompress handler
of package `deflate`).

Bytes are modelled as `List Nat`; Go `int`/`int64` values as `Int`, with
explicit two's-complement truncation (`intWrap`) where the code converts
an `int64` count to `int`.  The zlib codec itself is an external
dependency of the repository (`compress/zlib`); it is modelled as an
abstract `Codec` (an encode function taking the payload and the writer's
codec level, and a decode function that fails on inputs that do not start
with a valid stream header).  The spec assumes a correct, bit-exact codec
as a dependency; `Codec.Conforming` states exactly the assumed facts:
decoding inverts encoding at every codec-supported level, and the empty
byte sequence has no valid header, so reader construction fails on it.

Pools (`sync.Pool` per normalized level) are modelled as a map from the
normalized-level index to the stack of idle writers, a writer being
identified by the codec level it was constructed with.  `sync.Pool.Get`
is modelled deterministically as popping the most recently put element
(an empty pool models the "Get returns nil" case).
-/

namespace DeflateEngine

abbrev Bytes := List Nat

/-- Errors surfaced by the engine (Go `error` values). -/
inductive CErr where
  | codecInit
  | sizeOverflow
  | sinkWrite
deriving DecidableEq, Repr

/-- Level constants exposed by package `deflate` (mirroring `compress/flate`). -/
def BestCompression : Int := 9

def BestSpeed : Int := 1

def DefaultCompression : Int := -1

def NoCompression : Int := 0

/-- `const CompressDefaultCompression = 6 // flate.DefaultCompression` -/
def CompressDefaultCompression : Int := 6

/-- `zlib.HuffmanOnly`, the lowest codec-supported level. -/
def zlibHuffmanOnly : Int := -2

/-- `zlib.BestCompression`, the highest codec-supported level. -/
def zlibBestCompression : Int := 9

/-- normalizes compression level into [0..11], so it could be used as an index
in *PoolMap (compress.go, `normalizeCompressLevel`). -/
def normalizeCompressLevel (level : Int) : Int :=
  (if level < -2 ∨ 9 < level then CompressDefaultCompression else level) + 2

/-- The level actually given to a newly constructed codec writer:
`zlib.NewWriterLevel` rejects levels outside [-2, 9], and
`acquireRealDeflateWriter` then clamps to the min or max supported level. -/
def clampZlibLevel (level : Int) : Int :=
  if level < -2 ∨ 9 < level then
    (if level < zlibHuffmanOnly then zlibHuffmanOnly else zlibBestCompression)
  else level

/-- A pool family: for each normalized-level index, the stack of idle
codec writers, each identified by the codec level it was built with. -/
def PoolMap := Int → List Int

/-- The freshly initialized pool family (`newCompressWriterPoolMap`:
twelve empty pools, one per index in [0..11]; indices are always images
of `normalizeCompressLevel`, so a total map of empty stacks models it). -/
def newCompressWriterPoolMap : PoolMap := fun _ => []

def poolUpdate (pm : PoolMap) (i : Int) (s : List Int) : PoolMap :=
  fun j => if j = i then s else pm j

/-- `acquireRealDeflateWriter(w, level)`: take an idle writer from the
real-writer pool at `normalizeCompressLevel level` (it is then `Reset`,
keeping its codec level), or construct a new `zlib.Writer`, clamping the
level when `zlib.NewWriterLevel` rejects it.  Returns the codec level of
the acquired writer and the updated pool. -/
def acquireRealDeflateWriter (pm : PoolMap) (level : Int) : Int × PoolMap :=
  let nLevel := normalizeCompressLevel level
  match pm nLevel with
  | [] => (clampZlibLevel level, pm)
  | zw :: rest => (zw, poolUpdate pm nLevel rest)

/-- `releaseRealDeflateWriter(zw, level)`: close the writer and put it
back in the pool at `normalizeCompressLevel level`. -/
def releaseRealDeflateWriter (pm : PoolMap) (zwLevel level : Int) : PoolMap :=
  let nLevel := normalizeCompressLevel level
  poolUpdate pm nLevel (zwLevel :: pm nLevel)

/-- The external zlib codec: `encode b lv` is the full zlib stream of `b`
written by a codec writer of level `lv` (write-then-close), `decode s`
is the decompressed content of stream `s` (`none` when reader
construction fails on an invalid header). -/
structure Codec where
  encode : Bytes → Int → Bytes
  decode : Bytes → Option Bytes

/-- The facts the spec assumes about the external codec: decoding
inverts encoding at every codec-supported level, and the empty input has
no valid zlib header (the two header bytes cannot be read), so reader
construction fails on it. -/
def Codec.Conforming (c : Codec) : Prop :=
  (∀ b lv, -2 ≤ lv → lv ≤ 9 → c.decode (c.encode b lv) = some b) ∧
  c.decode [] = none

/-- Engine state: the two process-wide pool families,
`realDeflateWriterPoolMap` and `stacklessDeflateWriterPoolMap` (a pooled
stackless writer is identified by the codec level of the real writer it
wraps). -/
structure EngineState where
  realPool : PoolMap
  stkPool : PoolMap

/-- Both pool families as freshly initialized at process start. -/
def engineStart : EngineState :=
  ⟨newCompressWriterPoolMap, newCompressWriterPoolMap⟩

/-- Destinations, classified as in the `switch` of `WriteDeflateLevel`:
`byteSlice` is `*byteSliceWriter`, `memBuffer` covers `*bytes.Buffer`
and `*bytebufferpool.ByteBuffer` (in-memory, their `Write` never fails),
`generic` is any other `io.Writer`, whose underlying write may fail with
the given error. -/
inductive Dest where
  | byteSlice (b : Bytes)
  | memBuffer (b : Bytes)
  | generic (b : Bytes) (werr : Option CErr)
deriving DecidableEq, Repr

/-- The bytes held by / delivered to a destination. -/
def destBytes : Dest → Bytes
  | .byteSlice b => b
  | .memBuffer b => b
  | .generic b _ => b

/-- The underlying write failure of a destination, if any. -/
def destErr : Dest → Option CErr
  | .byteSlice _ => none
  | .memBuffer _ => none
  | .generic _ werr => werr

/-- `nonblockingWriteDeflate(ctx)`: acquire a real deflate writer for
`(w, level)`, write the payload through it (`zw.Write(ctx.p)`, error
discarded), close and release it.  Returns the bytes now held by the
destination and the updated real-writer pool. -/
def nonblockingWriteDeflate (c : Codec) (pm : PoolMap) (wb p : Bytes)
    (level : Int) : Bytes × PoolMap :=
  let zw := acquireRealDeflateWriter pm level
  (wb ++ c.encode p zw.1, releaseRealDeflateWriter zw.2 zw.1 level)

/-- `stacklessWriteDeflate(ctx)`: hand the job to the bounded worker of
`stackless.NewFunc(nonblockingWriteDeflate)` and wait; functionally it
performs exactly `nonblockingWriteDeflate`. -/
def stacklessWriteDeflate (c : Codec) (pm : PoolMap) (wb p : Bytes)
    (level : Int) : Bytes × PoolMap :=
  nonblockingWriteDeflate c pm wb p level

/-- `AcquireStacklessDeflateWriter(w, level)`: take a pooled stackless
writer at `normalizeCompressLevel level` (then `Reset` onto `w`), or
create a new one whose wrapped real writer is drawn by the
`acquireRealDeflateWriter(w, level)` callback.  Returns the codec level
of the wrapped real writer and the updated engine state. -/
def AcquireStacklessDeflateWriter (st : EngineState) (level : Int) :
    Int × EngineState :=
  let nLevel := normalizeCompressLevel level
  match st.stkPool nLevel with
  | sw :: rest => (sw, { st with stkPool := poolUpdate st.stkPool nLevel rest })
  | [] =>
    let zw := acquireRealDeflateWriter st.realPool level
    (zw.1, { st with realPool := zw.2 })

/-- `releaseStacklessDeflateWriter(sw, level)`: close the stackless
writer and put it in the stackless pool at `normalizeCompressLevel
level` (the wrapped real writer stays inside it). -/
def releaseStacklessDeflateWriter (st : EngineState) (swLevel level : Int) :
    EngineState :=
  let nLevel := normalizeCompressLevel level
  { st with stkPool := poolUpdate st.stkPool nLevel (swLevel :: st.stkPool nLevel) }

/-- Result of `WriteDeflateLevel`: the destination after the write, the
engine state, and the returned `(int, error)` pair. -/
structure WRes where
  w : Dest
  st : EngineState
  n : Int
  err : Option CErr

/-- `WriteDeflateLevel(w, p, level)`: byte-slice and in-memory-buffer
destinations take the non-blocking `stacklessWriteDeflate` path and
return `(len(p), nil)`; any other destination goes through a pooled
stackless writer, returning whatever `zw.Write(p)` returns (`len(p)` on
success, the underlying write error otherwise), and releases the writer
on every path. -/
def WriteDeflateLevel (c : Codec) (st : EngineState) (w : Dest) (p : Bytes)
    (level : Int) : WRes :=
  match w with
  | .byteSlice b =>
    let r := stacklessWriteDeflate c st.realPool b p level
    ⟨.byteSlice r.1, { st with realPool := r.2 }, (p.length : Int), none⟩
  | .memBuffer b =>
    let r := stacklessWriteDeflate c st.realPool b p level
    ⟨.memBuffer r.1, { st with realPool := r.2 }, (p.length : Int), none⟩
  | .generic b werr =>
    let zw := AcquireStacklessDeflateWriter st level
    let st₂ := releaseStacklessDeflateWriter zw.2 zw.1 level
    match werr with
    | some e => ⟨.generic b werr, st₂, 0, some e⟩
    | none => ⟨.generic (b ++ c.encode p zw.1) werr, st₂, (p.length : Int), none⟩

/-- Result of `AppendDeflateBytesLevel`: the returned byte slice, the
returned error and the engine state after the call. -/
structure ARes where
  bytes : Bytes
  err : Option CErr
  st : EngineState

/-- `AppendDeflateBytesLevel(dst, src, level)`: wrap `dst` in a
`byteSliceWriter`, run `WriteDeflateLevel` and return the writer's bytes
with the error. -/
def AppendDeflateBytesLevel (c : Codec) (st : EngineState) (dst src : Bytes)
    (level : Int) : ARes :=
  let r := WriteDeflateLevel c st (.byteSlice dst) src level
  ⟨destBytes r.w, r.err, r.st⟩

/-- Two's-complement truncation of an (unbounded) integer to a `bits`-bit
signed machine integer: the meaning of Go's `int(n)` conversion from
`int64` when `int` is `bits` wide. -/
def intWrap (bits : Nat) (n : Int) : Int :=
  (n + 2 ^ (bits - 1)) % 2 ^ bits - 2 ^ (bits - 1)

/-- Result of `WriteInflate`: destination after the copy and the
returned `(int, error)` pair. -/
structure IRes where
  w : Dest
  n : Int
  err : Option CErr

/-- `utils.CopyZeroAlloc(zw, zr)`: copy all decompressed bytes into the
destination; returns the destination, the `int64` count of copied bytes
and any sink write error. -/
def copyZeroAlloc (w : Dest) (out : Bytes) : Dest × Int × Option CErr :=
  match w with
  | .byteSlice b => (.byteSlice (b ++ out), (out.length : Int), none)
  | .memBuffer b => (.memBuffer (b ++ out), (out.length : Int), none)
  | .generic b werr =>
    match werr with
    | some e => (.generic b werr, 0, some e)
    | none => (.generic (b ++ out) werr, (out.length : Int), none)

/-- `WriteInflate(w, p)`: wrap `p` in a `byteSliceReader`, acquire a
flate reader from it (failing if the stream header is invalid), copy all
decompressed bytes to `w`, release the reader; then `nn := int(n)` and
if `int64(nn) != n` report the overflow with count 0, else return the
count and any copy error.  `bits` is the width of the platform's `int`. -/
def WriteInflate (c : Codec) (bits : Nat) (w : Dest) (p : Bytes) : IRes :=
  match c.decode p with
  | none => ⟨w, 0, some CErr.codecInit⟩
  | some out =>
    let r := copyZeroAlloc w out
    let nn := intWrap bits r.2.1
    if nn = r.2.1 then ⟨r.1, nn, r.2.2⟩
    else ⟨r.1, 0, some CErr.sizeOverflow⟩

/-- `AppendInflateBytes(dst, src)`: wrap `dst` in a `byteSliceWriter`,
run `WriteInflate` and return the writer's bytes with the error. -/
def AppendInflateBytes (c : Codec) (bits : Nat) (dst src : Bytes) :
    Bytes × Option CErr :=
  let r := WriteInflate c bits (.byteSlice dst) src
  (destBytes r.w, r.err)

/-- A request as seen by the middleware's decompress handler: body plus
the two headers it manipulates. -/
structure Request where
  body : Bytes
  contentEncoding : Option String
  contentLength : Option String
deriving DecidableEq, Repr

/-- `DefaultDecompressHandle` (package `deflate`): skip empty bodies;
otherwise inflate the body, aborting with HTTP 400 on error, else delete
the Content-Encoding and Content-Length headers and set the inflated
body.  Returns the request and the abort status code, if any. -/
def DefaultDecompressHandle (c : Codec) (req : Request) :
    Request × Option Nat :=
  if req.body.length ≤ 0 then (req, none)
  else
    let r := AppendInflateBytes c 64 [] req.body
    match r.2 with
    | some _ => (req, some 400)
    | none => (⟨r.1, none, none⟩, none)

/-- A concrete conforming codec used to instantiate the theorems: a
two-byte header (CMF byte 120 and a flag byte recording the codec
level, as zlib's FLEVEL bits do) followed by the stored payload. -/
def levelFlagByte (lv : Int) : Nat := (lv + 2).toNat

def storeCodec : Codec where
  encode b lv := 120 :: levelFlagByte lv :: b
  decode s :=
    match s with
    | _ :: _ :: rest => some rest
    | _ => none

/-- A codec whose decode output is too long for a 32-bit `int`. -/
def bigCodec : Codec where
  encode b _ := b
  decode _ := some (List.replicate (2 ^ 31) 0)

/-! Helper predicates and lemmas. -/

/-- Every idle writer in the pool family has a codec-supported level. -/
def LevelsInRange (pm : PoolMap) : Prop :=
  ∀ i lv, lv ∈ pm i → -2 ≤ lv ∧ lv ≤ 9

/-- The invariant the pools actually maintain: every idle writer's codec
level is codec-supported, and it matches its index (`lv + 2 = i`) except
possibly at the shared default index 8, which also receives clamped
writers built for out-of-range requests. -/
def PoolLevelInvariant (pm : PoolMap) : Prop :=
  ∀ i lv, lv ∈ pm i → ((-2 ≤ lv ∧ lv ≤ 9) ∧ (lv + 2 = i ∨ i = 8))

/-- One acquire-use-release cycle of a real deflate writer at the given
requested level. -/
def writerCycle (pm : PoolMap) (level : Int) : PoolMap :=
  let zw := acquireRealDeflateWriter pm level
  releaseRealDeflateWriter zw.2 zw.1 level

/-- A sequence of acquire/release cycles at the given requested levels. -/
def writerCycles (pm : PoolMap) (levels : List Int) : PoolMap :=
  levels.foldl writerCycle pm

lemma clampZlibLevel_range (l : Int) :
    -2 ≤ clampZlibLevel l ∧ clampZlibLevel l ≤ 9 := by
  unfold clampZlibLevel zlibHuffmanOnly zlibBestCompression
  split
  · split <;> omega
  · omega

lemma clampZlibLevel_normalize (l : Int) :
    clampZlibLevel l + 2 = normalizeCompressLevel l ∨ normalizeCompressLevel l = 8 := by
  unfold clampZlibLevel normalizeCompressLevel zlibHuffmanOnly zlibBestCompression
    CompressDefaultCompression
  split
  · right; omega
  · left; omega

lemma acquireReal_range (pm : PoolMap) (h : LevelsInRange pm) (l : Int) :
    -2 ≤ (acquireRealDeflateWriter pm l).1 ∧ (acquireRealDeflateWriter pm l).1 ≤ 9 := by
  unfold acquireRealDeflateWriter
  rcases hp : pm (normalizeCompressLevel l) with _ | ⟨zw, rest⟩
  · simp only [hp]
    exact clampZlibLevel_range l
  · simp only [hp]
    exact h (normalizeCompressLevel l) zw (by rw [hp]; exact List.mem_cons_self zw rest)

lemma acquireReal_matches_index (pm : PoolMap) (h : PoolLevelInvariant pm) (l : Int) :
    (acquireRealDeflateWriter pm l).1 + 2 = normalizeCompressLevel l ∨
      normalizeCompressLevel l = 8 := by
  unfold acquireRealDeflateWriter
  rcases hp : pm (normalizeCompressLevel l) with _ | ⟨zw, rest⟩
  · simp only [hp]
    exact clampZlibLevel_normalize l
  · simp only [hp]
    exact (h (normalizeCompressLevel l) zw
      (by rw [hp]; exact List.mem_cons_self zw rest)).2

lemma poolLevelInvariant_levelsInRange (pm : PoolMap) (h : PoolLevelInvariant pm) :
    LevelsInRange pm :=
  fun i lv hm => (h i lv hm).1

lemma newPoolMap_poolLevelInvariant : PoolLevelInvariant newCompressWriterPoolMap := by
  intro i lv hm
  simp [newCompressWriterPoolMap] at hm

lemma newPoolMap_levelsInRange : LevelsInRange newCompressWriterPoolMap := by
  intro i lv hm
  simp [newCompressWriterPoolMap] at hm

lemma poolUpdate_mem {pm : PoolMap} {i j lv : Int} {s : List Int}
    (hmem : lv ∈ poolUpdate pm i s j) : (j = i ∧ lv ∈ s) ∨ (j ≠ i ∧ lv ∈ pm j) := by
  unfold poolUpdate at hmem
  by_cases hj : j = i
  · subst hj
    simp only [if_pos rfl] at hmem
    exact Or.inl ⟨rfl, hmem⟩
  · simp only [if_neg hj] at hmem
    exact Or.inr ⟨hj, hmem⟩

lemma acquireReal_of_empty {pm : PoolMap} {level : Int}
    (hp : pm (normalizeCompressLevel level) = []) :
    acquireRealDeflateWriter pm level = (clampZlibLevel level, pm) := by
  unfold acquireRealDeflateWriter
  simp only [hp]

lemma acquireReal_of_cons {pm : PoolMap} {level zw : Int} {rest : List Int}
    (hp : pm (normalizeCompressLevel level) = zw :: rest) :
    acquireRealDeflateWriter pm level
      = (zw, poolUpdate pm (normalizeCompressLevel level) rest) := by
  unfold acquireRealDeflateWriter
  simp only [hp]

lemma writerCycle_preserves (pm : PoolMap) (level : Int)
    (h : PoolLevelInvariant pm) : PoolLevelInvariant (writerCycle pm level) := by
  intro i lv hmem
  unfold writerCycle at hmem
  rcases hp : pm (normalizeCompressLevel level) with _ | ⟨zw, rest⟩
  · rw [acquireReal_of_empty hp] at hmem
    unfold releaseRealDeflateWriter at hmem
    rcases poolUpdate_mem hmem with ⟨hi, hin⟩ | ⟨_, hin⟩
    · subst hi
      rcases List.mem_cons.mp hin with hlv | hlv
      · subst hlv
        exact ⟨clampZlibLevel_range level, clampZlibLevel_normalize level⟩
      · exact h _ lv hlv
    · exact h i lv hin
  · rw [acquireReal_of_cons hp] at hmem
    unfold releaseRealDeflateWriter at hmem
    have hzw := h _ zw (by rw [hp]; exact List.mem_cons_self zw rest)
    rcases poolUpdate_mem hmem with ⟨hi, hin⟩ | ⟨hi, hin⟩
    · subst hi
      rcases List.mem_cons.mp hin with hlv | hlv
      · subst hlv
        exact hzw
      · have hrest : lv ∈ rest := by simpa [poolUpdate] using hlv
        exact h _ lv (by rw [hp]; exact List.mem_cons_of_mem zw hrest)
    · have hpm : lv ∈ pm i := by simpa [poolUpdate, hi] using hin
      exact h i lv hpm

lemma writerCycles_preserve (pm : PoolMap) (levels : List Int)
    (h : PoolLevelInvariant pm) : PoolLevelInvariant (writerCycles pm levels) := by
  induction levels generalizing pm with
  | nil => exact h
  | cons l ls ih => exact ih (writerCycle pm l) (writerCycle_preserves pm l h)

lemma intWrap64_id (n : Int) (h0 : 0 ≤ n) (h1 : n < 2 ^ 63) : intWrap 64 n = n := by
  have h63 : (2 : Int) ^ 63 = 9223372036854775808 := by norm_num
  rw [h63] at h1
  unfold intWrap
  norm_num
  omega

lemma storeCodec_conforming : storeCodec.Conforming := by
  constructor
  · intro b lv _ _
    rfl
  · rfl

/-! Claim theorems. -/

/-- C1: round-trip — for every byte sequence `b` (including the empty
one) and every integer level `l` (in- or out-of-range), decompressing
the result of compressing `b` at level `l` yields `b` again:
`AppendInflateBytes(nil, AppendDeflateBytesLevel(nil, b, l))` returns
`(b, nil)`.  Stated for any conforming codec and any engine state whose
pooled writers all have codec-supported levels (as every reachable state
does), with the Go-guaranteed fact that a slice length fits in `int`. -/
theorem roundtrip_append_inflate_deflate (c : Codec) (hc : c.Conforming)
    (st : EngineState) (hst : LevelsInRange st.realPool) (b : Bytes) (l : Int)
    (hb : (b.length : Int) < 2 ^ 63) :
    AppendInflateBytes c 64 [] (AppendDeflateBytesLevel c st [] b l).bytes
      = (b, none) := by
  have hzw := acquireReal_range st.realPool hst l
  have hdeflate : (AppendDeflateBytesLevel c st [] b l).bytes
      = c.encode b (acquireRealDeflateWriter st.realPool l).1 := by
    simp [AppendDeflateBytesLevel, WriteDeflateLevel, stacklessWriteDeflate,
      nonblockingWriteDeflate, destBytes]
  rw [hdeflate]
  have hdec := hc.1 b _ hzw.1 hzw.2
  simp [AppendInflateBytes, WriteInflate, hdec, copyZeroAlloc, destBytes,
    intWrap64_id (b.length : Int) (Int.natCast_nonneg _) hb]

/-- Witness for C1 at the store codec, a fresh engine, `b = [104, 105]`
and level 5. -/
theorem roundtrip_append_inflate_deflate_witness :
    AppendInflateBytes storeCodec 64 []
        (AppendDeflateBytesLevel storeCodec engineStart [] [104, 105] 5).bytes
      = ([104, 105], none) :=
  roundtrip_append_inflate_deflate storeCodec storeCodec_conforming
    engineStart newPoolMap_levelsInRange [104, 105] 5 (by decide)

/-- C2 counterexample: the claim "decompressing a zero-length payload
returns `(dst, nil)` without initializing a codec reader" is false on
the code — `WriteInflate` has no empty-payload guard and calls
`acquireFlateReader` on the empty input, whose header read fails, so
`AppendInflateBytes(dst, [])` returns a non-nil error. -/
theorem inflate_empty_payload_cex :
    ¬ AppendInflateBytes storeCodec 64 [1, 2, 3] [] = ([1, 2, 3], none) := by
  decide

/-- C2 amended: on a zero-length payload the engine's `WriteInflate`
does attempt to initialize a codec reader, which fails on empty input,
so `AppendInflateBytes(dst, [])` returns `dst` unchanged together with a
non-nil reader-initialization error; the documented empty-input no-op
lives one layer up, in the middleware's `DefaultDecompressHandle`, which
skips decompression entirely (request unchanged, no abort) when the body
is empty. -/
theorem inflate_empty_payload_amended (c : Codec) (hc : c.Conforming)
    (dst : Bytes) (req : Request) (hreq : req.body = []) :
    AppendInflateBytes c 64 dst [] = (dst, some CErr.codecInit) ∧
    DefaultDecompressHandle c req = (req, none) := by
  constructor
  · simp [AppendInflateBytes, WriteInflate, hc.2, destBytes]
  · simp [DefaultDecompressHandle, hreq]

/-- Witness for the amended C2 at the store codec. -/
theorem inflate_empty_payload_amended_witness :
    AppendInflateBytes storeCodec 64 [5] [] = ([5], some CErr.codecInit) ∧
    DefaultDecompressHandle storeCodec ⟨[], none, none⟩ = (⟨[], none, none⟩, none) :=
  inflate_empty_payload_amended storeCodec storeCodec_conforming [5]
    ⟨[], none, none⟩ rfl

/-- C3 counterexample: the claim "for out-of-range `l`,
`normalizeCompressLevel l = normalizeCompressLevel DefaultCompression`
with `DefaultCompression = -1`" is false at `l = 10`:
`normalizeCompressLevel 10 = 8` (out-of-range levels are replaced by the
engine constant `CompressDefaultCompression = 6`), while
`normalizeCompressLevel (-1) = 1`. -/
theorem normalize_coercion_cex :
    DefaultCompression = -1 ∧
    ¬ normalizeCompressLevel 10 = normalizeCompressLevel DefaultCompression := by
  decide

/-- C3 amended: for every integer `l` outside `[-2, 9]`,
`normalizeCompressLevel l` equals
`normalizeCompressLevel CompressDefaultCompression`, where the engine's
internal default-level constant `CompressDefaultCompression` is 6 (the
exposed `DefaultCompression` constant is −1 and is not the coercion
target). -/
theorem normalize_outofrange_eq_engine_default (l : Int)
    (h : l < -2 ∨ 9 < l) :
    normalizeCompressLevel l = normalizeCompressLevel CompressDefaultCompression := by
  unfold normalizeCompressLevel CompressDefaultCompression
  rw [if_pos h]
  norm_num

/-- Witness for the amended C3 at `l = 10`. -/
theorem normalize_outofrange_eq_engine_default_witness :
    normalizeCompressLevel 10 = normalizeCompressLevel CompressDefaultCompression :=
  normalize_outofrange_eq_engine_default 10 (by decide)

/-- C4: `normalizeCompressLevel` is a pure total function whose result
lies in [0, 11]; on `[-2, 9]` it is `level + 2`, and outside that range
it is the engine default level 6 plus the +2 offset, i.e. index 8. -/
theorem normalizeCompressLevel_contract (l : Int) :
    (0 ≤ normalizeCompressLevel l ∧ normalizeCompressLevel l ≤ 11) ∧
    (-2 ≤ l → l ≤ 9 → normalizeCompressLevel l = l + 2) ∧
    ((l < -2 ∨ 9 < l) →
      normalizeCompressLevel l = CompressDefaultCompression + 2 ∧
      normalizeCompressLevel l = 8) := by
  unfold normalizeCompressLevel CompressDefaultCompression
  refine ⟨?_, fun h1 h2 => ?_, fun h => ?_⟩ <;> split <;> omega

/-- Witness for C4 at the in-range level 5 and the out-of-range level
100 (both instances of the one contract theorem). -/
theorem normalizeCompressLevel_contract_witness :
    ((0 ≤ normalizeCompressLevel 5 ∧ normalizeCompressLevel 5 ≤ 11) ∧
      (-2 ≤ (5 : Int) → (5 : Int) ≤ 9 → normalizeCompressLevel 5 = 5 + 2) ∧
      (((5 : Int) < -2 ∨ 9 < (5 : Int)) →
        normalizeCompressLevel 5 = CompressDefaultCompression + 2 ∧
        normalizeCompressLevel 5 = 8)) ∧
    ((0 ≤ normalizeCompressLevel 100 ∧ normalizeCompressLevel 100 ≤ 11) ∧
      (-2 ≤ (100 : Int) → (100 : Int) ≤ 9 → normalizeCompressLevel 100 = 100 + 2) ∧
      (((100 : Int) < -2 ∨ 9 < (100 : Int)) →
        normalizeCompressLevel 100 = CompressDefaultCompression + 2 ∧
        normalizeCompressLevel 100 = 8)) :=
  ⟨normalizeCompressLevel_contract 5, normalizeCompressLevel_contract 100⟩

/-- The real-writer pool after one acquire/release cycle at the
out-of-range requested level 10, starting from the fresh pool family. -/
def poolAfterOutOfRange : PoolMap :=
  releaseRealDeflateWriter (acquireRealDeflateWriter newCompressWriterPoolMap 10).2
    (acquireRealDeflateWriter newCompressWriterPoolMap 10).1 10

/-- C5 counterexample: the claim "a writer taken from (or newly created
for) the pool at Normalized Level Index i has the codec level
corresponding to i, including when out-of-range construction clamps" is
false.  For the out-of-range request 10 the pool index is 8 (default),
but the newly constructed writer is clamped to codec level 9; after it
is released, a request at level 6 (also index 8) re-acquires that
level-9 writer even though index 8 corresponds to codec level 6. -/
theorem pool_writer_level_mismatch_cex :
    normalizeCompressLevel 10 = 8 ∧
    (acquireRealDeflateWriter newCompressWriterPoolMap 10).1 = 9 ∧
    normalizeCompressLevel 6 = 8 ∧
    (acquireRealDeflateWriter poolAfterOutOfRange 6).1 = 9 ∧
    ¬ (9 : Int) = 8 - 2 := by
  decide

/-- C5 amended: for every sequence of acquire/release cycles, a pooled
writer is only ever stored at — and re-acquired from — the pool index of
the request's normalized level, so reuse stays within one normalized
level class; every pooled writer's codec level is codec-supported
(in [-2, 9]) and corresponds to its pool index (`level + 2 = index`)
except at the shared default index 8, which also receives writers
clamped to −2 or 9 built for out-of-range requests.  Consequently, a
writer acquired at requested level `l` matches its index exactly unless
`normalizeCompressLevel l = 8`. -/
theorem pool_writer_level_invariant_amended (pm : PoolMap)
    (h : PoolLevelInvariant pm) (levels : List Int) (l : Int) :
    PoolLevelInvariant (writerCycles pm levels) ∧
    (-2 ≤ (acquireRealDeflateWriter (writerCycles pm levels) l).1 ∧
      (acquireRealDeflateWriter (writerCycles pm levels) l).1 ≤ 9) ∧
    ((acquireRealDeflateWriter (writerCycles pm levels) l).1 + 2
        = normalizeCompressLevel l ∨
      normalizeCompressLevel l = 8) := by
  have hinv := writerCycles_preserve pm levels h
  exact ⟨hinv,
    acquireReal_range _ (poolLevelInvariant_levelsInRange _ hinv) l,
    acquireReal_matches_index _ hinv l⟩

/-- Witness for the amended C5 starting from the fresh pool family,
running cycles at levels 10 and 6, then acquiring at level 3. -/
theorem pool_writer_level_invariant_amended_witness :
    PoolLevelInvariant (writerCycles newCompressWriterPoolMap [10, 6]) ∧
    (-2 ≤ (acquireRealDeflateWriter (writerCycles newCompressWriterPoolMap [10, 6]) 3).1 ∧
      (acquireRealDeflateWriter (writerCycles newCompressWriterPoolMap [10, 6]) 3).1 ≤ 9) ∧
    ((acquireRealDeflateWriter (writerCycles newCompressWriterPoolMap [10, 6]) 3).1 + 2
        = normalizeCompressLevel 3 ∨
      normalizeCompressLevel 3 = 8) :=
  pool_writer_level_invariant_amended newCompressWriterPoolMap
    newPoolMap_poolLevelInvariant [10, 6] 3

/-- The engine state reached from a fresh engine after one
`WriteDeflateLevel` call at the out-of-range level 100 on a generic
(pooled stackless path) destination: a stackless writer wrapping a
clamped level-9 real writer now sits in the stackless pool at the
default index 8. -/
def divergedState : EngineState :=
  (WriteDeflateLevel storeCodec engineStart (Dest.generic [] none) [7] 100).st

/-- C6 counterexample: the claim "the delivered compressed bytes are
identical whether `WriteDeflateLevel` takes the inline non-blocking path
or the pooled stackless-writer path" is false.  From `divergedState`
(reached by real engine operations), a write of payload `[7]` at level 6
delivers the level-6 stream on the inline (byte-slice) path but the
level-9 stream on the pooled stackless (generic destination) path,
because the stackless pool at index 8 still holds the clamped level-9
writer while the real-writer pool is empty. -/
theorem dispatch_paths_diverge_cex :
    ¬ destBytes (WriteDeflateLevel storeCodec divergedState
          (Dest.byteSlice []) [7] 6).w
      = destBytes (WriteDeflateLevel storeCodec divergedState
          (Dest.generic [] none) [7] 6).w := by
  decide

/-- C6 amended: the two dispatch paths deliver identical bytes whenever
the two pool families hold no writer at the requested normalized level
(in particular on a fresh engine, and whenever no out-of-range or
default-level request has shared index 8): both then construct a writer
at the clamped level and deliver exactly `encode p (clamp l)`.  In
general the paths draw from two different pool families, and a history
of out-of-range requests can leave writers of different codec levels at
the shared default index 8, making the delivered bytes differ. -/
theorem dispatch_paths_agree_on_empty_pools (c : Codec) (st : EngineState)
    (p b₁ b₂ : Bytes) (l : Int)
    (h1 : st.realPool (normalizeCompressLevel l) = [])
    (h2 : st.stkPool (normalizeCompressLevel l) = []) :
    destBytes (WriteDeflateLevel c st (Dest.byteSlice b₁) p l).w
      = b₁ ++ c.encode p (clampZlibLevel l) ∧
    destBytes (WriteDeflateLevel c st (Dest.generic b₂ none) p l).w
      = b₂ ++ c.encode p (clampZlibLevel l) := by
  constructor
  · simp [WriteDeflateLevel, stacklessWriteDeflate, nonblockingWriteDeflate,
      acquireReal_of_empty h1, destBytes]
  · simp [WriteDeflateLevel, AcquireStacklessDeflateWriter, h2,
      acquireReal_of_empty h1, destBytes]

/-- Witness for the amended C6 on a fresh engine at level 5. -/
theorem dispatch_paths_agree_on_empty_pools_witness :
    destBytes (WriteDeflateLevel storeCodec engineStart (Dest.byteSlice [1]) [7] 5).w
      = [1] ++ storeCodec.encode [7] (clampZlibLevel 5) ∧
    destBytes (WriteDeflateLevel storeCodec engineStart (Dest.generic [2] none) [7] 5).w
      = [2] ++ storeCodec.encode [7] (clampZlibLevel 5) :=
  dispatch_paths_agree_on_empty_pools storeCodec engineStart [7] [1] [2] 5 rfl rfl

/-- C7: for every destination, payload and level, when
`WriteDeflateLevel` returns a nil error the byte count it reports is
`len(p)` — the input byte count, not the compressed size — and any
underlying write error of the destination is propagated. -/
theorem writeDeflate_reports_input_length (c : Codec) (st : EngineState)
    (w : Dest) (p : Bytes) (l : Int) :
    ((WriteDeflateLevel c st w p l).err = none →
      (WriteDeflateLevel c st w p l).n = (p.length : Int)) ∧
    (∀ e, destErr w = some e → (WriteDeflateLevel c st w p l).err = some e) := by
  cases w with
  | byteSlice b => simp [WriteDeflateLevel, destErr]
  | memBuffer b => simp [WriteDeflateLevel, destErr]
  | generic b werr => cases werr <;> simp [WriteDeflateLevel, destErr]

/-- Witness for C7 at a failing generic destination (error propagated)
and, via the same theorem, a healthy one (count is the input length). -/
theorem writeDeflate_reports_input_length_witness :
    (((WriteDeflateLevel storeCodec engineStart
          (Dest.generic [] (some CErr.sinkWrite)) [3, 4] 5).err = none →
        (WriteDeflateLevel storeCodec engineStart
          (Dest.generic [] (some CErr.sinkWrite)) [3, 4] 5).n
          = (([3, 4] : Bytes).length : Int)) ∧
      (∀ e, destErr (Dest.generic [] (some CErr.sinkWrite)) = some e →
        (WriteDeflateLevel storeCodec engineStart
          (Dest.generic [] (some CErr.sinkWrite)) [3, 4] 5).err = some e)) ∧
    (((WriteDeflateLevel storeCodec engineStart
          (Dest.byteSlice []) [3, 4] 5).err = none →
        (WriteDeflateLevel storeCodec engineStart
          (Dest.byteSlice []) [3, 4] 5).n = (([3, 4] : Bytes).length : Int)) ∧
      (∀ e, destErr (Dest.byteSlice []) = some e →
        (WriteDeflateLevel storeCodec engineStart
          (Dest.byteSlice []) [3, 4] 5).err = some e)) :=
  ⟨writeDeflate_reports_input_length storeCodec engineStart
      (Dest.generic [] (some CErr.sinkWrite)) [3, 4] 5,
    writeDeflate_reports_input_length storeCodec engineStart
      (Dest.byteSlice []) [3, 4] 5⟩

/-- C8: append, not overwrite — `AppendDeflateBytesLevel(dst, src, l)`
returns `dst` followed by exactly the compressed stream of `src` written
by the acquired writer, and `AppendInflateBytes(dst, src)` returns `dst`
followed by exactly the decompressed bytes of `src`; the original `dst`
prefix is preserved unchanged (the model is pure, so `dst` itself is
never mutated). -/
theorem append_preserves_dst (c : Codec) (st : EngineState)
    (dst src out : Bytes) (l : Int) (hdec : c.decode src = some out)
    (hlen : (out.length : Int) < 2 ^ 63) :
    (AppendDeflateBytesLevel c st dst src l).bytes
      = dst ++ c.encode src (acquireRealDeflateWriter st.realPool l).1 ∧
    (AppendInflateBytes c 64 dst src).1 = dst ++ out := by
  constructor
  · simp [AppendDeflateBytesLevel, WriteDeflateLevel, stacklessWriteDeflate,
      nonblockingWriteDeflate, destBytes]
  · simp [AppendInflateBytes, WriteInflate, hdec, copyZeroAlloc, destBytes,
      intWrap64_id (out.length : Int) (Int.natCast_nonneg _) hlen]

/-- Witness for C8 at the store codec: dst "XYZ" = [88, 89, 90], src
"hello"-like payload for deflate, and a concrete stream for inflate. -/
theorem append_preserves_dst_witness :
    (AppendDeflateBytesLevel storeCodec engineStart [88, 89, 90] [120, 1, 2] 5).bytes
      = [88, 89, 90] ++ storeCodec.encode [120, 1, 2]
          (acquireRealDeflateWriter engineStart.realPool 5).1 ∧
    (AppendInflateBytes storeCodec 64 [88, 89, 90] [120, 1, 2]).1
      = [88, 89, 90] ++ [2] :=
  append_preserves_dst storeCodec engineStart [88, 89, 90] [120, 1, 2] [2] 5
    rfl (by decide)

/-- C9: size-overflow reporting — whenever the decompressed byte count
copied by `WriteInflate` does not fit the platform's `int`
(`int(n) != n` for the `int64` count `n`), `WriteInflate` returns count
0 together with a non-nil overflow error instead of the silently
truncated count. -/
theorem writeInflate_size_overflow (c : Codec) (bits : Nat) (w : Dest)
    (p out : Bytes) (hdec : c.decode p = some out) (hw : destErr w = none)
    (hover : ¬ intWrap bits (out.length : Int) = (out.length : Int)) :
    (WriteInflate c bits w p).n = 0 ∧
    (WriteInflate c bits w p).err = some CErr.sizeOverflow := by
  cases w with
  | byteSlice b => simp [WriteInflate, hdec, copyZeroAlloc, hover]
  | memBuffer b => simp [WriteInflate, hdec, copyZeroAlloc, hover]
  | generic b werr =>
    cases werr with
    | none => simp [WriteInflate, hdec, copyZeroAlloc, hover]
    | some e => simp [destErr] at hw

/-- Witness for C9 on a 32-bit `int`: a codec yielding 2^31
decompressed bytes overflows, and the call reports (0, overflow). -/
theorem writeInflate_size_overflow_witness :
    (WriteInflate bigCodec 32 (Dest.byteSlice []) []).n = 0 ∧
    (WriteInflate bigCodec 32 (Dest.byteSlice []) []).err
      = some CErr.sizeOverflow :=
  writeInflate_size_overflow bigCodec 32 (Dest.byteSlice [])
    [] (List.replicate (2 ^ 31) 0) rfl rfl
    (by rw [List.length_replicate]; decide)

/-- C10 (implicit): buffer-path compression never reports an error —
for every dst, src, level and engine state, `AppendDeflateBytesLevel`
returns a nil error, because for byte-slice destinations
`WriteDeflateLevel` takes the inline non-blocking branch that
unconditionally returns `(len(p), nil)` while the offloaded worker
discards the codec writer's write error. -/
theorem appendDeflate_error_always_none (c : Codec) (st : EngineState)
    (dst src : Bytes) (l : Int) :
    (AppendDeflateBytesLevel c st dst src l).err = none := by
  simp [AppendDeflateBytesLevel, WriteDeflateLevel]

end DeflateEngine
